import Mathlib

/-!
Shallow embedding of `src/elevator_sim.cpp` (msaenzjr23/elevator-simulation).

The C++ core is a discrete-time multi-elevator simulation:
`Elevator` (floor / direction / door / FIFO target queue / stop counter),
`ElevatorSystem` (fleet, pending-request backlog, clock, assignment counter),
greedy direction-aware dispatch in `ElevatorSystem::assignRequests`, request
validation in `ElevatorSystem::addRequest`, and the per-tick state machine
`Elevator::step`.  C++ `int` is modelled as `Int` (no arithmetic here comes
near 32-bit overflow in reachable states; the `INT_MAX` sentinel used by the
dispatcher's argmin loop is kept explicitly as `intMax`), `std::deque<int>` as
`List Int` (front = head, `push_back` = append), and the fleet vector as
`List Elevator`.  Console/log output is ignored: it never feeds back into the
simulation state.
-/

namespace ElevatorSim

/-- `enum class Direction` from the source. -/
inductive Direction where
  | Idle : Direction
  | Up : Direction
  | Down : Direction
deriving DecidableEq, Repr

/-- `class Request`: pickup floor, destination floor, submission time. -/
structure Request where
  fromFloor : Int
  toFloor : Int
  timeRequested : Int
deriving DecidableEq, Repr

/-- `class Elevator`: the per-elevator state owned by the simulation. -/
structure Elevator where
  id : Int
  currentFloor : Int
  direction : Direction
  doorOpen : Bool
  targets : List Int
  totalStopsServed : Int
deriving DecidableEq, Repr

namespace Elevator

/-- The `Elevator(id_, startFloor)` constructor: Idle, door closed, empty
queue, zero stops. -/
def init (id_ startFloor : Int) : Elevator :=
  { id := id_
  , currentFloor := startFloor
  , direction := Direction.Idle
  , doorOpen := false
  , targets := []
  , totalStopsServed := 0 }

/-- `Elevator::getQueueSize` (queue length as an `Int`, as the C++ cast does). -/
def getQueueSize (e : Elevator) : Int :=
  (e.targets.length : Int)

/-- `Elevator::addTarget`: append `floor` unless it equals the current queue
tail (`targets.back()`). -/
def addTarget (e : Elevator) (floor : Int) : Elevator :=
  if e.targets.getLast? = some floor then e
  else { e with targets := e.targets ++ [floor] }

/-- `Elevator::isIdle`. -/
def isIdle (e : Elevator) : Bool :=
  e.targets.isEmpty && !e.doorOpen && e.direction = Direction.Idle

/-- `Elevator::distanceToFloor`: `abs(floor - currentFloor)`. -/
def distanceToFloor (e : Elevator) (floor : Int) : Int :=
  |floor - e.currentFloor|

/-- `Elevator::step`, the one-tick state machine, translated branch by
branch: (1) door open → close it, count the stop, pop the front target if it
equals the current floor, go Idle if the queue emptied, no movement;
(2) empty queue → Idle, no movement; (3) otherwise move one floor toward the
front target, or open the door upon arrival (direction untouched). -/
def step (e : Elevator) : Elevator :=
  if e.doorOpen then
    let e1 := { e with doorOpen := false, totalStopsServed := e.totalStopsServed + 1 }
    let e2 :=
      match e1.targets with
      | f :: rest => if f = e1.currentFloor then { e1 with targets := rest } else e1
      | [] => e1
    if e2.targets = [] then { e2 with direction := Direction.Idle } else e2
  else
    match e.targets with
    | [] => { e with direction := Direction.Idle }
    | t :: _ =>
      if e.currentFloor < t then
        { e with currentFloor := e.currentFloor + 1, direction := Direction.Up }
      else if e.currentFloor > t then
        { e with currentFloor := e.currentFloor - 1, direction := Direction.Down }
      else
        { e with doorOpen := true }

end Elevator

/-- `std::numeric_limits<int>::max()`, the sentinel initialising `bestScore`
in `ElevatorSystem::assignRequests`. -/
def intMax : Int := 2 ^ 31 - 1

/-- The `goingSameWay` computation inside `assignRequests`: Idle elevators are
always compatible; an Up elevator is compatible with a pickup at or above its
floor; a Down elevator with a pickup at or below its floor. -/
def Elevator.goingSameWay (e : Elevator) (fromFloor : Int) : Bool :=
  if e.direction = Direction.Idle then true
  else if e.direction = Direction.Up ∧ fromFloor ≥ e.currentFloor then true
  else if e.direction = Direction.Down ∧ fromFloor ≤ e.currentFloor then true
  else false

/-- The per-(request, elevator) score computed by `assignRequests`: distance
to the pickup floor, +5 if moving and not `goingSameWay`, plus the queue
length. -/
def scoreFor (e : Elevator) (req : Request) : Int :=
  let dist := e.distanceToFloor req.fromFloor
  let score := dist
  let score :=
    if ¬ e.goingSameWay req.fromFloor ∧ e.direction ≠ Direction.Idle then score + 5
    else score
  score + e.getQueueSize

/-- The inner argmin loop of `assignRequests`: scan elevators left to right
carrying `(bestIndex, bestScore)`, updating on a strictly smaller score.
`i` is the index of the first elevator of the remaining list. -/
def bestLoop (req : Request) : Nat → List Elevator → Int × Int → Int × Int
  | _, [], acc => acc
  | i, e :: rest, (bi, bs) =>
    let sc := scoreFor e req
    if sc < bs then bestLoop req (i + 1) rest ((i : Int), sc)
    else bestLoop req (i + 1) rest (bi, bs)

/-- The full argmin over the fleet, started from `(-1, INT_MAX)` as in the
source. -/
def bestOf (elevators : List Elevator) (req : Request) : Int × Int :=
  bestLoop req 0 elevators (-1, intMax)

/-- In-place update of the `i`-th elevator (the C++ `elevators[bestIndex]`
mutation). Out-of-range indices leave the list unchanged. -/
def modifyAt (l : List Elevator) (i : Nat) (f : Elevator → Elevator) : List Elevator :=
  match l, i with
  | [], _ => []
  | e :: rest, 0 => f e :: rest
  | e :: rest, Nat.succ j => e :: modifyAt rest j f

/-- One iteration of the outer loop of `assignRequests`: accumulator is
`(elevators, (stillPending, totalRequestsProcessed))`.  If some elevator was
selected, push pickup then destination onto its queue and count the
assignment; otherwise keep the request pending. -/
def assignBody (acc : List Elevator × List Request × Int) (req : Request) :
    List Elevator × List Request × Int :=
  let best := bestOf acc.1 req
  if best.1 ≠ -1 then
    (modifyAt acc.1 best.1.toNat
        (fun e => (e.addTarget req.fromFloor).addTarget req.toFloor),
      acc.2.1, acc.2.2 + 1)
  else
    (acc.1, acc.2.1 ++ [req], acc.2.2)

/-- `class ElevatorSystem` (the log file handle is I/O-only and omitted). -/
structure ElevatorSystem where
  numFloors : Int
  elevators : List Elevator
  pendingRequests : List Request
  currentTime : Int
  totalRequestsProcessed : Int
deriving DecidableEq, Repr

namespace ElevatorSystem

/-- The `ElevatorSystem(floors, numElevators)` constructor: elevators
`0 … numElevators-1`, all starting at floor 0. -/
def create (floors numElevators : Int) : ElevatorSystem :=
  { numFloors := floors
  , elevators := (List.range numElevators.toNat).map (fun i => Elevator.init (i : Int) 0)
  , pendingRequests := []
  , currentTime := 0
  , totalRequestsProcessed := 0 }

/-- `ElevatorSystem::assignRequests`: fold the outer loop over the backlog. -/
def assignRequests (s : ElevatorSystem) : ElevatorSystem :=
  let r := s.pendingRequests.foldl assignBody (s.elevators, ([], s.totalRequestsProcessed))
  { s with elevators := r.1, pendingRequests := r.2.1, totalRequestsProcessed := r.2.2 }

/-- The two rejection kinds of `ElevatorSystem::addRequest` (reported on the
console in the source; modelled as values). -/
inductive RequestError where
  | OutOfRange : RequestError
  | SameFloor : RequestError
deriving DecidableEq, Repr

/-- `ElevatorSystem::addRequest`: bounds check, then same-floor check, then
append to the backlog stamped with `currentTime`.  Returns the (possibly
unchanged) system together with the error reported, if any. -/
def addRequest (s : ElevatorSystem) (fromFloor toFloor : Int) :
    ElevatorSystem × Option RequestError :=
  if fromFloor < 0 ∨ fromFloor ≥ s.numFloors ∨ toFloor < 0 ∨ toFloor ≥ s.numFloors then
    (s, some RequestError.OutOfRange)
  else if fromFloor = toFloor then
    (s, some RequestError.SameFloor)
  else
    ({ s with pendingRequests :=
        s.pendingRequests ++ [⟨fromFloor, toFloor, s.currentTime⟩] }, none)

/-- `ElevatorSystem::step` (one tick): advance the clock, dispatch the
backlog, then step every elevator in index order. -/
def step (s : ElevatorSystem) : ElevatorSystem :=
  let s1 := { s with currentTime := s.currentTime + 1 }
  let s2 := s1.assignRequests
  { s2 with elevators := s2.elevators.map Elevator.step }

end ElevatorSystem

/-- An externally driven operation on the system: a request submission or a
clock tick (queries are pure and need no modelling). -/
inductive Op where
  | submit (fromFloor toFloor : Int) : Op
  | tick : Op
deriving DecidableEq, Repr

/-- Apply one operation (a failed submission leaves the state unchanged). -/
def applyOp (s : ElevatorSystem) : Op → ElevatorSystem
  | Op.submit f t => (s.addRequest f t).1
  | Op.tick => s.step

/-- Run a sequence of operations. -/
def run (s : ElevatorSystem) (ops : List Op) : ElevatorSystem :=
  ops.foldl applyOp s

/-- Directional compatibility in the words of the specification (§4.2): an
elevator is compatible with a pickup floor when it is Idle, or moving Up with
`fromFloor ≥ currentFloor`, or moving Down with `fromFloor ≤ currentFloor`.
Stated independently of `goingSameWay` to be compared against it. -/
def compatibleSpec (e : Elevator) (fromFloor : Int) : Prop :=
  e.direction = Direction.Idle ∨
    (e.direction = Direction.Up ∧ fromFloor ≥ e.currentFloor) ∨
    (e.direction = Direction.Down ∧ fromFloor ≤ e.currentFloor)

instance (e : Elevator) (fromFloor : Int) : Decidable (compatibleSpec e fromFloor) := by
  unfold compatibleSpec; infer_instance

/-- All floor data of the system lies in `[0, numFloors)`: every elevator's
position and queued targets, and both floors of every pending request. -/
def wellFloored (s : ElevatorSystem) : Prop :=
  (∀ e ∈ s.elevators,
    (0 ≤ e.currentFloor ∧ e.currentFloor < s.numFloors) ∧
    ∀ f ∈ e.targets, 0 ≤ f ∧ f < s.numFloors) ∧
  (∀ r ∈ s.pendingRequests,
    (0 ≤ r.fromFloor ∧ r.fromFloor < s.numFloors) ∧
    (0 ≤ r.toFloor ∧ r.toFloor < s.numFloors))

/-- The fields of an elevator that dispatch must not touch (everything except
the target queue). -/
def frameEq (e e' : Elevator) : Prop :=
  e'.id = e.id ∧ e'.currentFloor = e.currentFloor ∧ e'.direction = e.direction ∧
    e'.doorOpen = e.doorOpen ∧ e'.totalStopsServed = e.totalStopsServed

/-- Index-wise frame agreement between two fleets of the same size. -/
def fleetFrame (l l' : List Elevator) : Prop :=
  l'.length = l.length ∧
    ∀ i e e', l.get? i = some e → l'.get? i = some e' → frameEq e e'

end ElevatorSim

/-! ## Elevator-level lemmas -/

namespace ElevatorSim

namespace Elevator

/-- `addTarget` touches only the target queue. -/
lemma addTarget_frame (e : Elevator) (f : Int) :
    (e.addTarget f).id = e.id ∧ (e.addTarget f).currentFloor = e.currentFloor ∧
    (e.addTarget f).direction = e.direction ∧ (e.addTarget f).doorOpen = e.doorOpen ∧
    (e.addTarget f).totalStopsServed = e.totalStopsServed := by
  unfold addTarget
  split_ifs <;> exact ⟨rfl, rfl, rfl, rfl, rfl⟩

/-- `addTarget` grows the queue by at most one entry. -/
lemma addTarget_length_le (e : Elevator) (f : Int) :
    (e.addTarget f).targets.length ≤ e.targets.length + 1 := by
  unfold addTarget
  split_ifs <;> simp

/-- Every entry of the queue after `addTarget` is an old entry or the new
floor. -/
lemma mem_addTarget (x : Int) (e : Elevator) (f : Int)
    (hx : x ∈ (e.addTarget f).targets) : x ∈ e.targets ∨ x = f := by
  unfold addTarget at hx
  split_ifs at hx
  · exact Or.inl hx
  · rcases List.mem_append.mp hx with h | h
    · exact Or.inl h
    · exact Or.inr (List.mem_singleton.mp h)

/-- Branch 1 of `step` (door open): the door closes, the stop is counted, the
front target is popped when it matches the floor, the direction falls back to
Idle exactly when the queue emptied, and nothing moves. -/
lemma step_door_open_spec (e : Elevator) (h : e.doorOpen = true) :
    e.step.doorOpen = false ∧
    e.step.currentFloor = e.currentFloor ∧
    e.step.totalStopsServed = e.totalStopsServed + 1 ∧
    e.step.targets =
      (if e.targets.head? = some e.currentFloor then e.targets.tail else e.targets) ∧
    e.step.direction =
      (if (if e.targets.head? = some e.currentFloor then e.targets.tail else e.targets) = []
       then Direction.Idle else e.direction) ∧
    e.step.id = e.id := by
  obtain ⟨i, cur, dir, door, tgts, stops⟩ := e
  simp only at h
  subst h
  cases tgts with
  | nil => simp [step]
  | cons f rest =>
    by_cases hf : f = cur
    · subst hf
      by_cases hr : rest = [] <;> simp [step, hr]
    · have : ¬ ((some f : Option Int) = some cur) := by simpa using hf
      simp [step, hf, this]

/-- Branches 2 and 3 of `step` (door closed): empty queue goes Idle in place;
otherwise the elevator moves one floor toward the front target or, having
arrived, opens the door leaving everything else untouched. -/
lemma step_door_closed_spec (e : Elevator) (h : e.doorOpen = false) :
    (e.targets = [] →
      e.step = { e with direction := Direction.Idle }) ∧
    (∀ t rest, e.targets = t :: rest →
      (e.currentFloor < t →
        e.step = { e with currentFloor := e.currentFloor + 1, direction := Direction.Up }) ∧
      (e.currentFloor > t →
        e.step = { e with currentFloor := e.currentFloor - 1, direction := Direction.Down }) ∧
      (e.currentFloor = t →
        e.step = { e with doorOpen := true })) := by
  obtain ⟨i, cur, dir, door, tgts, stops⟩ := e
  simp only at h
  subst h
  constructor
  · intro ht
    simp only at ht
    subst ht
    simp [step]
  · intro t rest ht
    simp only at ht
    subst ht
    refine ⟨?_, ?_, ?_⟩
    · intro hlt
      simp [step, hlt]
    · intro hgt
      simp only at hgt
      have hnlt : ¬ cur < t := by omega
      simp [step, hnlt, hgt]
    · intro heq
      simp only at heq
      subst heq
      simp [step]

/-- `totalStopsServed` never decreases across a single elevator tick. -/
lemma stops_le_step (e : Elevator) : e.totalStopsServed ≤ e.step.totalStopsServed := by
  by_cases h : e.doorOpen = true
  · have := (step_door_open_spec e h).2.2.1
    omega
  · have h' : e.doorOpen = false := by simpa using h
    obtain ⟨i, cur, dir, door, tgts, stops⟩ := e
    simp only at h'
    subst h'
    cases tgts with
    | nil => simp [step]
    | cons t rest =>
      by_cases hlt : cur < t
      · simp [step, hlt]
      · by_cases hgt : cur > t <;> simp [step, hlt, hgt]

/-- After a tick, an open door means the elevator sits at the front of its
(non-empty) queue. -/
lemma step_door_open_at_front (e : Elevator) (h : e.step.doorOpen = true) :
    e.step.targets ≠ [] ∧ e.step.targets.head? = some e.step.currentFloor := by
  by_cases hd : e.doorOpen = true
  · have := (step_door_open_spec e hd).1
    rw [this] at h
    exact absurd h (by simp)
  · have hd' : e.doorOpen = false := by simpa using hd
    obtain ⟨i, cur, dir, door, tgts, stops⟩ := e
    simp only at hd'
    subst hd'
    cases tgts with
    | nil => simp [step] at h
    | cons t rest =>
      by_cases hlt : cur < t
      · simp [step, hlt] at h
      · by_cases hgt : cur > t
        · simp [step, hlt, hgt] at h
        · have heq : cur = t := by omega
          subst heq
          simp [step]

/-- After a tick, an empty queue with a closed door forces direction Idle. -/
lemma step_idle_of_empty_closed (e : Elevator)
    (h1 : e.step.targets = []) (h2 : e.step.doorOpen = false) :
    e.step.direction = Direction.Idle := by
  by_cases hd : e.doorOpen = true
  · obtain ⟨_, _, _, ht, hdir, _⟩ := step_door_open_spec e hd
    rw [ht] at h1
    rw [hdir, h1]
    simp
  · have hd' : e.doorOpen = false := by simpa using hd
    obtain ⟨i, cur, dir, door, tgts, stops⟩ := e
    simp only at hd'
    subst hd'
    cases tgts with
    | nil => simp [step]
    | cons t rest =>
      by_cases hlt : cur < t
      · simp [step, hlt] at h1
      · by_cases hgt : cur > t
        · simp [step, hlt, hgt] at h1
        · have heq : cur = t := by omega
          subst heq
          simp [step] at h2

end Elevator

/-- The elevators after a system tick are precisely the stepped elevators of
the post-dispatch state. -/
lemma ElevatorSystem.step_elevators (s : ElevatorSystem) :
    s.step.elevators =
      (ElevatorSystem.assignRequests
        { s with currentTime := s.currentTime + 1 }).elevators.map Elevator.step := rfl

end ElevatorSim

/-! ## Claims C1, C3, C5 -/

namespace ElevatorSim

/-- C1 as stated is false on the code: on a 10-floor system with one elevator
(idle at floor 0), submitting the request (0, 3) and ticking once makes
`assignRequests` queue the pickup floor 0, and `Elevator::step` then opens
the door at the current floor without touching `direction`; after that tick
the elevator has `direction == Idle` while its queue is `[0, 3]` and its door
is open, refuting `Idle ⇔ (queue empty ∧ door closed)`. -/
theorem direction_idle_iff_counterexample :
    ∃ e ∈ (((ElevatorSystem.create 10 1).addRequest 0 3).1.step).elevators,
      e.direction = Direction.Idle ∧ ¬(e.targets = [] ∧ e.doorOpen = false) := by
  decide

/-- C1 (amended): after every tick of the simulation, every elevator whose
target queue is empty and whose door is closed has `direction == Idle`.  (The
converse implication of the original claim fails: an elevator can end a tick
with `direction == Idle`, an open door, and a non-empty queue when it is
handed a pickup at its current floor.) -/
theorem idle_of_empty_closed_after_tick (s : ElevatorSystem) :
    ∀ e ∈ s.step.elevators, e.targets = [] → e.doorOpen = false →
      e.direction = Direction.Idle := by
  intro e he h1 h2
  rw [ElevatorSystem.step_elevators] at he
  obtain ⟨e', _, rfl⟩ := List.mem_map.mp he
  exact Elevator.step_idle_of_empty_closed e' h1 h2

/-- Witness for the amended C1 at a concrete tick of a concrete system. -/
theorem idle_of_empty_closed_after_tick_witness :
    (Elevator.step (Elevator.init 0 0)).direction = Direction.Idle :=
  idle_of_empty_closed_after_tick (ElevatorSystem.create 10 1)
    (Elevator.step (Elevator.init 0 0)) (by decide) (by decide) (by decide)

/-- C3: `Elevator::step` runs exactly one branch, in priority order.  Door
open: close it, count the stop, pop the front target iff it equals the
current floor, fall back to Idle exactly when the queue emptied, no movement.
Door closed with empty queue: go Idle in place.  Door closed having arrived
at the front target: open the door (tick N, no movement); the next tick
closes it, counts the stop and pops the target, still without movement; and
only the tick after that moves one floor toward a remaining (distinct) front
target — a 2-tick dwell at every served stop. -/
theorem step_branch_structure_and_dwell (e : Elevator) :
    (e.doorOpen = true →
      e.step.doorOpen = false ∧
      e.step.currentFloor = e.currentFloor ∧
      e.step.totalStopsServed = e.totalStopsServed + 1 ∧
      e.step.targets =
        (if e.targets.head? = some e.currentFloor then e.targets.tail else e.targets) ∧
      e.step.direction =
        (if e.step.targets = [] then Direction.Idle else e.direction)) ∧
    (e.doorOpen = false → e.targets = [] →
      e.step = { e with direction := Direction.Idle }) ∧
    (e.doorOpen = false → e.targets.head? = some e.currentFloor →
      e.step = { e with doorOpen := true } ∧
      e.step.step.doorOpen = false ∧
      e.step.step.currentFloor = e.currentFloor ∧
      e.step.step.totalStopsServed = e.totalStopsServed + 1 ∧
      e.step.step.targets = e.targets.tail ∧
      (∀ g, e.targets.tail.head? = some g → g ≠ e.currentFloor →
        e.step.step.step.currentFloor =
          (if e.currentFloor < g then e.currentFloor + 1 else e.currentFloor - 1) ∧
        e.step.step.step.direction =
          (if e.currentFloor < g then Direction.Up else Direction.Down))) := by
  refine ⟨?_, ?_, ?_⟩
  · intro h
    obtain ⟨h1, h2, h3, h4, h5, _⟩ := Elevator.step_door_open_spec e h
    refine ⟨h1, h2, h3, h4, ?_⟩
    rw [h5, ← h4]
  · intro h ht
    exact (Elevator.step_door_closed_spec e h).1 ht
  · intro h hf
    obtain ⟨t, rest, htg⟩ : ∃ t rest, e.targets = t :: rest := by
      cases htg' : e.targets with
      | nil => rw [htg'] at hf; simp at hf
      | cons t rest => exact ⟨t, rest, rfl⟩
    have hf' : t = e.currentFloor := by
      rw [htg] at hf
      simpa using hf
    have h1 : e.step = { e with doorOpen := true } :=
      ((Elevator.step_door_closed_spec e h).2 t rest htg).2.2 hf'.symm
    have hcond : ({ e with doorOpen := true } : Elevator).targets.head? =
        some ({ e with doorOpen := true } : Elevator).currentFloor := by
      exact hf
    obtain ⟨a1, a2, a3, a4, a5, _⟩ :=
      Elevator.step_door_open_spec ({ e with doorOpen := true } : Elevator) rfl
    have hD : e.step.step.doorOpen = false := by rw [h1]; exact a1
    have hC : e.step.step.currentFloor = e.currentFloor := by rw [h1]; exact a2
    have hS : e.step.step.totalStopsServed = e.totalStopsServed + 1 := by
      rw [h1]; exact a3
    have hT : e.step.step.targets = e.targets.tail := by
      rw [h1, a4, if_pos hcond]
    refine ⟨h1, hD, hC, hS, hT, ?_⟩
    intro g hg hgne
    rcases ht2 : e.targets.tail with _ | ⟨g2, rest2⟩
    · rw [ht2] at hg
      simp at hg
    · rw [ht2] at hg
      simp only [List.head?_cons, Option.some.injEq] at hg
      subst hg
      have hFt : e.step.step.targets = g2 :: rest2 := by rw [hT, ht2]
      have spec2 := (Elevator.step_door_closed_spec (e.step.step) hD).2 g2 rest2 hFt
      by_cases hlt : e.currentFloor < g2
      · have hmv := spec2.1 (by rw [hC]; exact hlt)
        rw [if_pos hlt, if_pos hlt]
        constructor
        · rw [hmv]
          show e.step.step.currentFloor + 1 = e.currentFloor + 1
          rw [hC]
        · rw [hmv]
      · have hgt : e.step.step.currentFloor > g2 := by
          rw [hC]
          omega
        have hmv := spec2.2.1 hgt
        rw [if_neg hlt, if_neg hlt]
        constructor
        · rw [hmv]
          show e.step.step.currentFloor - 1 = e.currentFloor - 1
          rw [hC]
        · rw [hmv]

/-- Witness for C3: a door-open elevator counts its stop; a door-closed
elevator with an empty queue goes Idle in place; and the full 2-tick dwell
plays out for an elevator handed a pickup at its current floor with a higher
destination queued behind it. -/
theorem step_branch_structure_and_dwell_witness :
    (Elevator.step ⟨1, 4, Direction.Up, true, [7], 2⟩).totalStopsServed = 2 + 1 ∧
    Elevator.step ⟨0, 3, Direction.Up, false, [], 0⟩ =
      ⟨0, 3, Direction.Idle, false, [], 0⟩ ∧
    Elevator.step ⟨0, 0, Direction.Idle, false, [0, 3], 0⟩ =
      ⟨0, 0, Direction.Idle, true, [0, 3], 0⟩ ∧
    (Elevator.step (Elevator.step (Elevator.step
        ⟨0, 0, Direction.Idle, false, [0, 3], 0⟩))).currentFloor =
      (if (0 : Int) < 3 then (0 : Int) + 1 else (0 : Int) - 1) :=
  ⟨((step_branch_structure_and_dwell ⟨1, 4, Direction.Up, true, [7], 2⟩).1 rfl).2.2.1,
   (step_branch_structure_and_dwell ⟨0, 3, Direction.Up, false, [], 0⟩).2.1 rfl rfl,
   ((step_branch_structure_and_dwell ⟨0, 0, Direction.Idle, false, [0, 3], 0⟩).2.2 rfl rfl).1,
   (((step_branch_structure_and_dwell ⟨0, 0, Direction.Idle, false, [0, 3], 0⟩).2.2 rfl rfl).2.2.2.2.2
      3 rfl (by decide)).1⟩

/-- C5: after every tick of the simulation, an elevator whose door is open
has a non-empty target queue and sits exactly at its front. -/
theorem door_open_at_front_after_tick (s : ElevatorSystem) :
    ∀ e ∈ s.step.elevators, e.doorOpen = true →
      e.targets ≠ [] ∧ e.targets.head? = some e.currentFloor := by
  intro e he hd
  rw [ElevatorSystem.step_elevators] at he
  obtain ⟨e', _, rfl⟩ := List.mem_map.mp he
  exact Elevator.step_door_open_at_front e' hd

/-- Witness for C5: the elevator of a 1-elevator 10-floor system that has
just opened its door on the pickup floor of request (0, 3). -/
theorem door_open_at_front_after_tick_witness :
    (⟨0, 0, Direction.Idle, true, [0, 3], 0⟩ : Elevator).targets ≠ [] ∧
    (⟨0, 0, Direction.Idle, true, [0, 3], 0⟩ : Elevator).targets.head? =
      some (⟨0, 0, Direction.Idle, true, [0, 3], 0⟩ : Elevator).currentFloor :=
  door_open_at_front_after_tick (((ElevatorSystem.create 10 1).addRequest 0 3).1)
    ⟨0, 0, Direction.Idle, true, [0, 3], 0⟩ (by decide) (by decide)

end ElevatorSim

namespace ElevatorSim

/-- C4: `submitRequest` rejects any floor outside `[0, numFloors-1]` with
`OutOfRange` and, for in-range floors, `from == to` with `SameFloor`, leaving
the whole system state (in particular the backlog) unchanged in both failure
cases; on success its only mutation is appending the one request, stamped
with `timeRequested = currentTime`, to the backlog. -/
theorem addRequest_validation (s : ElevatorSystem) (f t : Int) :
    ((f < 0 ∨ f ≥ s.numFloors ∨ t < 0 ∨ t ≥ s.numFloors) →
      s.addRequest f t = (s, some ElevatorSystem.RequestError.OutOfRange)) ∧
    (¬(f < 0 ∨ f ≥ s.numFloors ∨ t < 0 ∨ t ≥ s.numFloors) → f = t →
      s.addRequest f t = (s, some ElevatorSystem.RequestError.SameFloor)) ∧
    (¬(f < 0 ∨ f ≥ s.numFloors ∨ t < 0 ∨ t ≥ s.numFloors) → f ≠ t →
      s.addRequest f t =
        ({ s with pendingRequests :=
            s.pendingRequests ++ [⟨f, t, s.currentTime⟩] }, none)) := by
  refine ⟨?_, ?_, ?_⟩
  · intro h
    simp only [ElevatorSystem.addRequest]
    rw [if_pos h]
  · intro h hft
    simp only [ElevatorSystem.addRequest]
    rw [if_neg h, if_pos hft]
  · intro h hft
    simp only [ElevatorSystem.addRequest]
    rw [if_neg h, if_neg hft]

/-- Witness for C4: on a fresh 10-floor 2-elevator system, `(-1, 3)` is
rejected `OutOfRange`, `(4, 4)` is rejected `SameFloor` (state untouched in
both cases), and `(5, 8)` is accepted and appended at time 0. -/
theorem addRequest_validation_witness :
    (ElevatorSystem.create 10 2).addRequest (-1) 3 =
      (ElevatorSystem.create 10 2, some ElevatorSystem.RequestError.OutOfRange) ∧
    (ElevatorSystem.create 10 2).addRequest 4 4 =
      (ElevatorSystem.create 10 2, some ElevatorSystem.RequestError.SameFloor) ∧
    (ElevatorSystem.create 10 2).addRequest 5 8 =
      ({ ElevatorSystem.create 10 2 with pendingRequests := [⟨5, 8, 0⟩] }, none) :=
  ⟨(addRequest_validation (ElevatorSystem.create 10 2) (-1) 3).1 (by decide),
   (addRequest_validation (ElevatorSystem.create 10 2) 4 4).2.1 (by decide) rfl,
   (addRequest_validation (ElevatorSystem.create 10 2) 5 8).2.2 (by decide) (by decide)⟩

/-- C8: the greedy-assignment scenario of the spec, on `numFloors = 10` with
2 elevators idle at floor 0.  Submitting (5, 8) and ticking once assigns the
request to elevator 0 (tie-break by index — elevator 1 stays empty), making
its queue `[5, 8]` with `totalRequestsProcessed = 1`; five further ticks
later (the dispatch tick moved the car to floor 1 already) elevator 0 stands
at floor 5 with its door open, and the next tick raises its
`totalStopsServed` to 1. -/
theorem greedy_assignment_scenario :
    ((run (ElevatorSystem.create 10 2) [Op.submit 5 8, Op.tick]).elevators.head?.map
        Elevator.targets = some [5, 8] ∧
      ((run (ElevatorSystem.create 10 2) [Op.submit 5 8, Op.tick]).elevators.get? 1).map
        Elevator.targets = some [] ∧
      (run (ElevatorSystem.create 10 2)
        [Op.submit 5 8, Op.tick]).totalRequestsProcessed = 1) ∧
    ((run (ElevatorSystem.create 10 2)
        [Op.submit 5 8, Op.tick, Op.tick, Op.tick, Op.tick, Op.tick,
          Op.tick]).elevators.head?.map Elevator.currentFloor = some 5 ∧
      (run (ElevatorSystem.create 10 2)
        [Op.submit 5 8, Op.tick, Op.tick, Op.tick, Op.tick, Op.tick,
          Op.tick]).elevators.head?.map Elevator.doorOpen = some true ∧
      (run (ElevatorSystem.create 10 2)
        [Op.submit 5 8, Op.tick, Op.tick, Op.tick, Op.tick, Op.tick, Op.tick,
          Op.tick]).elevators.head?.map Elevator.totalStopsServed = some 1) := by
  decide

end ElevatorSim

namespace ElevatorSim

/-- The boolean `goingSameWay` test agrees with the spec's notion of
directional compatibility. -/
lemma goingSameWay_iff (e : Elevator) (f : Int) :
    e.goingSameWay f = true ↔ compatibleSpec e f := by
  unfold Elevator.goingSameWay compatibleSpec
  split_ifs with h1 h2 h3
  · simp [h1]
  · simp [h2]
  · simp [h3]
  · simp only [Bool.false_eq_true, false_iff]
    rintro (h | h | h)
    · exact h1 h
    · exact h2 h
    · exact h3 h

/-- The score computed by the dispatcher, written as the spec phrases it:
distance to the pickup floor, plus 5 exactly when the elevator is moving and
not directionally compatible, plus the current queue length. -/
lemma scoreFor_formula (e : Elevator) (req : Request) :
    scoreFor e req =
      e.distanceToFloor req.fromFloor +
        (if e.direction ≠ Direction.Idle ∧ ¬ compatibleSpec e req.fromFloor then 5 else 0) +
        (e.targets.length : Int) := by
  simp only [scoreFor, Elevator.getQueueSize]
  by_cases hg : e.goingSameWay req.fromFloor = true
  · have hc : compatibleSpec e req.fromFloor := (goingSameWay_iff e req.fromFloor).mp hg
    rw [if_neg (by simp [hg]), if_neg (fun h => h.2 hc)]
    ring
  · have hg' : e.goingSameWay req.fromFloor = false := by simpa using hg
    have hc : ¬ compatibleSpec e req.fromFloor := by
      intro h
      rw [(goingSameWay_iff e req.fromFloor).mpr h] at hg'
      simp at hg'
    have hd : e.direction ≠ Direction.Idle := fun hid => hc (Or.inl hid)
    rw [if_pos ⟨by simp [hg'], hd⟩, if_pos ⟨hd, hc⟩]

/-- Full characterisation of the inner argmin loop: either no elevator beat
the incoming best score (accumulator returned unchanged), or the loop returns
the index (offset by `k`) and score of the first elevator attaining the
minimum among those strictly below the incoming best score. -/
lemma bestLoop_spec (req : Request) :
    ∀ (l : List Elevator) (k : Nat) (bi bs : Int),
      (bestLoop req k l (bi, bs) = (bi, bs) ∧ ∀ e ∈ l, bs ≤ scoreFor e req) ∨
      (∃ j e, l.get? j = some e ∧
        bestLoop req k l (bi, bs) = (((k + j : Nat) : Int), scoreFor e req) ∧
        scoreFor e req < bs ∧
        (∀ i ei, l.get? i = some ei → scoreFor e req ≤ scoreFor ei req) ∧
        (∀ i ei, l.get? i = some ei → i < j → scoreFor e req < scoreFor ei req)) := by
  intro l
  induction l with
  | nil =>
    intro k bi bs
    left
    exact ⟨rfl, by simp⟩
  | cons e0 rest ih =>
    intro k bi bs
    by_cases hsc : scoreFor e0 req < bs
    · have hstep : bestLoop req k (e0 :: rest) (bi, bs)
          = bestLoop req (k + 1) rest (((k : Nat) : Int), scoreFor e0 req) := by
        simp [bestLoop, hsc]
    

      rcases ih (k + 1) ((k : Nat) : Int) (scoreFor e0 req) with
        ⟨heq, hall⟩ | ⟨j, e, hget, heq, hlt, hle, hbef⟩
      · right
        refine ⟨0, e0, List.get?_cons_zero, ?_, hsc, ?_, ?_⟩
        · rw [hstep, heq]
          norm_num
        · intro i ei hi
          cases i with
          | zero =>
            rw [List.get?_cons_zero, Option.some.injEq] at hi
            subst hi
            exact le_refl _
          | succ n =>
            rw [List.get?_cons_succ] at hi
            exact hall ei (List.get?_mem hi)
        · intro i ei _ hi0
          omega
      · right
        refine ⟨j + 1, e, ?_, ?_, lt_trans hlt hsc, ?_, ?_⟩
        · rw [List.get?_cons_succ]
          exact hget
        · rw [hstep, heq]
          congr 2
          omega
        · intro i ei hi
          cases i with
          | zero =>
            rw [List.get?_cons_zero, Option.some.injEq] at hi
            subst hi
            exact le_of_lt hlt
          | succ n =>
            rw [List.get?_cons_succ] at hi
            exact hle n ei hi
        · intro i ei hi hij
          cases i with
          | zero =>
            rw [List.get?_cons_zero, Option.some.injEq] at hi
            subst hi
            exact hlt
          | succ n =>
            rw [List.get?_cons_succ] at hi
            exact hbef n ei hi (by omega)
    · have hstep : bestLoop req k (e0 :: rest) (bi, bs)
          = bestLoop req (k + 1) rest (bi, bs) := by
        simp [bestLoop, hsc]
      rcases ih (k + 1) bi bs with
        ⟨heq, hall⟩ | ⟨j, e, hget, heq, hlt, hle, hbef⟩
      · left
        refine ⟨hstep.trans heq, ?_⟩
        intro e he
        rcases List.mem_cons.mp he with rfl | hmem
        · exact not_lt.mp hsc
        · exact hall e hmem
      · right
        refine ⟨j + 1, e, ?_, ?_, hlt, ?_, ?_⟩
        · rw [List.get?_cons_succ]
          exact hget
        · rw [hstep, heq]
          congr 2
          omega
        · intro i ei hi
          cases i with
          | zero =>
            rw [List.get?_cons_zero, Option.some.injEq] at hi
            subst hi
            exact le_of_lt (lt_of_lt_of_le hlt (not_lt.mp hsc))
          | succ n =>
            rw [List.get?_cons_succ] at hi
            exact hle n ei hi
        · intro i ei hi hij
          cases i with
          | zero =>
            rw [List.get?_cons_zero, Option.some.injEq] at hi
            subst hi
            exact lt_of_lt_of_le hlt (not_lt.mp hsc)
          | succ n =>
            rw [List.get?_cons_succ] at hi
            exact hbef n ei hi (by omega)

end ElevatorSim

namespace ElevatorSim

/-- When the fleet is non-empty and its head scores below the sentinel, the
argmin loop selects the first elevator attaining the minimal score and the
outer-loop body assigns the request to it (pickup then destination, one more
processed request, no new pending entry). -/
lemma assignBody_assigns (elevs : List Elevator) (req : Request)
    (still : List Request) (trp : Int) (e0 : Elevator)
    (h0 : elevs.get? 0 = some e0) (hb : scoreFor e0 req < intMax) :
    ∃ j ej, elevs.get? j = some ej ∧
      (bestOf elevs req).1 = (j : Int) ∧
      (bestOf elevs req).2 = scoreFor ej req ∧
      (∀ i ei, elevs.get? i = some ei → scoreFor ej req ≤ scoreFor ei req) ∧
      (∀ i ei, elevs.get? i = some ei → i < j → scoreFor ej req < scoreFor ei req) ∧
      assignBody (elevs, still, trp) req =
        (modifyAt elevs j (fun e => (e.addTarget req.fromFloor).addTarget req.toFloor),
          still, trp + 1) := by
  rcases bestLoop_spec req elevs 0 (-1) intMax with
    ⟨_, hall⟩ | ⟨j, ej, hget, heq, _, hle, hbef⟩
  · exact absurd hb (not_lt.mpr (hall e0 (List.get?_mem h0)))
  · have hb1 : (bestOf elevs req).1 = (j : Int) := by
      unfold bestOf
      rw [heq]
      norm_num
    have hb2 : (bestOf elevs req).2 = scoreFor ej req := by
      unfold bestOf
      rw [heq]
    refine ⟨j, ej, hget, hb1, hb2, hle, hbef, ?_⟩
    have hne : (bestOf elevs req).1 ≠ -1 := by
      rw [hb1]
      omega
    simp only [assignBody]
    rw [if_pos hne, hb1, Int.toNat_natCast]

/-- C2: for a pending request over a non-empty fleet (the head's score being
below the `INT_MAX` sentinel, as is the case in every reachable state), the
dispatcher scores each elevator as distance-to-pickup, plus 5 when moving and
not directionally compatible, plus queue length, and assigns the request to
the elevator with the strictly smallest score — ties broken by the lowest
index: the winner's score is minimal, every earlier index scores strictly
worse, and the loop pushes pickup then destination onto exactly that
elevator, counting one processed request. -/
theorem assignment_scoring_and_argmin (elevs : List Elevator) (req : Request)
    (still : List Request) (trp : Int) (e0 : Elevator)
    (h0 : elevs.get? 0 = some e0) (hb : scoreFor e0 req < intMax) :
    (∀ e : Elevator, scoreFor e req =
      e.distanceToFloor req.fromFloor +
        (if e.direction ≠ Direction.Idle ∧ ¬ compatibleSpec e req.fromFloor then 5 else 0) +
        (e.targets.length : Int)) ∧
    ∃ j ej, elevs.get? j = some ej ∧
      (bestOf elevs req).1 = (j : Int) ∧
      (bestOf elevs req).2 = scoreFor ej req ∧
      (∀ i ei, elevs.get? i = some ei → scoreFor ej req ≤ scoreFor ei req) ∧
      (∀ i ei, elevs.get? i = some ei → i < j → scoreFor ej req < scoreFor ei req) ∧
      assignBody (elevs, still, trp) req =
        (modifyAt elevs j (fun e => (e.addTarget req.fromFloor).addTarget req.toFloor),
          still, trp + 1) :=
  ⟨fun e => scoreFor_formula e req, assignBody_assigns elevs req still trp e0 h0 hb⟩

/-- Witness for C2: request (5, 8) over two idle elevators at floor 0; the
argmin is elevator 0 (tie on score 5, broken by index). -/
theorem assignment_scoring_and_argmin_witness :
    (∀ e : Elevator, scoreFor e ⟨5, 8, 0⟩ =
      e.distanceToFloor 5 +
        (if e.direction ≠ Direction.Idle ∧ ¬ compatibleSpec e 5 then 5 else 0) +
        (e.targets.length : Int)) ∧
    ∃ j ej, [Elevator.init 0 0, Elevator.init 1 0].get? j = some ej ∧
      (bestOf [Elevator.init 0 0, Elevator.init 1 0] ⟨5, 8, 0⟩).1 = (j : Int) ∧
      (bestOf [Elevator.init 0 0, Elevator.init 1 0] ⟨5, 8, 0⟩).2 = scoreFor ej ⟨5, 8, 0⟩ ∧
      (∀ i ei, [Elevator.init 0 0, Elevator.init 1 0].get? i = some ei →
        scoreFor ej ⟨5, 8, 0⟩ ≤ scoreFor ei ⟨5, 8, 0⟩) ∧
      (∀ i ei, [Elevator.init 0 0, Elevator.init 1 0].get? i = some ei → i < j →
        scoreFor ej ⟨5, 8, 0⟩ < scoreFor ei ⟨5, 8, 0⟩) ∧
      assignBody ([Elevator.init 0 0, Elevator.init 1 0], [], 0) ⟨5, 8, 0⟩ =
        (modifyAt [Elevator.init 0 0, Elevator.init 1 0] j
          (fun e => (e.addTarget (5 : Int)).addTarget (8 : Int)), [], 0 + 1) :=
  assignment_scoring_and_argmin [Elevator.init 0 0, Elevator.init 1 0] ⟨5, 8, 0⟩ [] 0
    (Elevator.init 0 0) rfl (by decide)

end ElevatorSim

namespace ElevatorSim

/-- `modifyAt` preserves the fleet size. -/
lemma modifyAt_length : ∀ (l : List Elevator) (i : Nat) (f : Elevator → Elevator),
    (modifyAt l i f).length = l.length := by
  intro l
  induction l with
  | nil => intro i f; rfl
  | cons e rest ih =>
    intro i f
    cases i with
    | zero => rfl
    | succ j => simp [modifyAt, ih]

/-- Pointwise description of `modifyAt`. -/
lemma modifyAt_get? : ∀ (l : List Elevator) (i k : Nat) (f : Elevator → Elevator),
    (modifyAt l i f).get? k = if k = i then (l.get? k).map f else l.get? k := by
  intro l
  induction l with
  | nil =>
    intro i k f
    simp [modifyAt]
  | cons e rest ih =>
    intro i k f
    cases i with
    | zero =>
      cases k with
      | zero => simp [modifyAt]
      | succ n => simp [modifyAt]
    | succ j =>
      cases k with
      | zero => simp [modifyAt]
      | succ n =>
        simp only [modifyAt, List.get?_cons_succ]
        rw [ih j n f]
        by_cases h : n = j
        · rw [if_pos h, if_pos (by omega)]
        · rw [if_neg h, if_neg (by omega)]

/-- Every member of `modifyAt l i f` is a member of `l` or the image under
`f` of a member of `l`. -/
lemma mem_modifyAt : ∀ (l : List Elevator) (i : Nat) (f : Elevator → Elevator) (x : Elevator),
    x ∈ modifyAt l i f → x ∈ l ∨ ∃ y ∈ l, x = f y := by
  intro l
  induction l with
  | nil =>
    intro i f x hx
    exact Or.inl hx
  | cons e rest ih =>
    intro i f x hx
    cases i with
    | zero =>
      rcases List.mem_cons.mp hx with rfl | hmem
      · exact Or.inr ⟨e, List.mem_cons_self e rest, rfl⟩
      · exact Or.inl (List.mem_cons_of_mem e hmem)
    | succ j =>
      rcases List.mem_cons.mp hx with rfl | hmem
      · exact Or.inl (List.mem_cons_self x rest)
      · rcases ih j f x hmem with h | ⟨y, hy, rfl⟩
        · exact Or.inl (List.mem_cons_of_mem e h)
        · exact Or.inr ⟨y, List.mem_cons_of_mem e hy, rfl⟩

/-- Pushing pickup and destination onto a queue leaves the frame fields of
the elevator untouched. -/
lemma frameEq_addTargets (e : Elevator) (a b : Int) :
    frameEq e ((e.addTarget a).addTarget b) := by
  obtain ⟨h1, h2, h3, h4, h5⟩ := Elevator.addTarget_frame e a
  obtain ⟨g1, g2, g3, g4, g5⟩ := Elevator.addTarget_frame (e.addTarget a) b
  exact ⟨g1.trans h1, g2.trans h2, g3.trans h3, g4.trans h4, g5.trans h5⟩

lemma fleetFrame_refl (l : List Elevator) : fleetFrame l l := by
  refine ⟨rfl, ?_⟩
  intro i e e' h1 h2
  rw [h1, Option.some.injEq] at h2
  subst h2
  exact ⟨rfl, rfl, rfl, rfl, rfl⟩

lemma fleetFrame_trans {a b c : List Elevator}
    (hab : fleetFrame a b) (hbc : fleetFrame b c) : fleetFrame a c := by
  refine ⟨hbc.1.trans hab.1, ?_⟩
  intro i e e' h1 h2
  obtain ⟨hia, -⟩ := List.get?_eq_some.mp h1
  have hib : i < b.length := by
    have hlen := hab.1
    omega
  obtain ⟨eb, hbmid⟩ : ∃ eb, b.get? i = some eb := ⟨_, List.get?_eq_get hib⟩
  obtain ⟨f1, f2, f3, f4, f5⟩ := hab.2 i e eb h1 hbmid
  obtain ⟨g1, g2, g3, g4, g5⟩ := hbc.2 i eb e' hbmid h2
  exact ⟨g1.trans f1, g2.trans f2, g3.trans f3, g4.trans f4, g5.trans f5⟩

end ElevatorSim

namespace ElevatorSim

/-- One outer-loop iteration of the dispatcher only ever touches target
queues: positions, directions, doors and stop counters are framed. -/
lemma assignBody_fleetFrame (acc : List Elevator × List Request × Int) (req : Request) :
    fleetFrame acc.1 (assignBody acc req).1 := by
  unfold assignBody
  by_cases h : (bestOf acc.1 req).1 ≠ -1
  · rw [if_pos h]
    refine ⟨modifyAt_length acc.1 _ _, ?_⟩
    intro i e e' h1 h2
    rw [modifyAt_get? acc.1 _ i _] at h2
    by_cases hi : i = (bestOf acc.1 req).1.toNat
    · rw [if_pos hi, h1] at h2
      simp only [Option.map_some', Option.some.injEq] at h2
      subst h2
      exact frameEq_addTargets e req.fromFloor req.toFloor
    · rw [if_neg hi, h1, Option.some.injEq] at h2
      subst h2
      exact ⟨rfl, rfl, rfl, rfl, rfl⟩
  · rw [if_neg h]
    exact fleetFrame_refl acc.1

/-- The whole dispatch fold frames every elevator's non-queue fields. -/
lemma assignFold_fleetFrame :
    ∀ (pending : List Request) (acc : List Elevator × List Request × Int),
      fleetFrame acc.1 (pending.foldl assignBody acc).1 := by
  intro pending
  induction pending with
  | nil => intro acc; exact fleetFrame_refl acc.1
  | cons r rest ih =>
    intro acc
    exact fleetFrame_trans (assignBody_fleetFrame acc r) (ih (assignBody acc r))

/-- C10: `assignRequests` leaves `numFloors`, the clock, the fleet size and
every elevator's position, direction, door state, stop counter and id
unchanged; only target queues, the backlog and the processed-request counter
may change. -/
theorem assignRequests_frame (s : ElevatorSystem) :
    s.assignRequests.numFloors = s.numFloors ∧
    s.assignRequests.currentTime = s.currentTime ∧
    s.assignRequests.elevators.length = s.elevators.length ∧
    ∀ i e e', s.elevators.get? i = some e → s.assignRequests.elevators.get? i = some e' →
      e'.id = e.id ∧ e'.currentFloor = e.currentFloor ∧ e'.direction = e.direction ∧
      e'.doorOpen = e.doorOpen ∧ e'.totalStopsServed = e.totalStopsServed := by
  have hf := assignFold_fleetFrame s.pendingRequests
    (s.elevators, ([], s.totalRequestsProcessed))
  exact ⟨rfl, rfl, hf.1, fun i e e' h1 h2 => hf.2 i e e' h1 h2⟩

/-- Witness for C10: dispatching the backlog `[(5, 8)]` of a fresh 10-floor
2-elevator system keeps elevator 0 at floor 0, Idle, door closed, zero
stops — only its queue changed. -/
theorem assignRequests_frame_witness :
    ((((ElevatorSystem.create 10 2).addRequest 5 8).1).assignRequests.numFloors = 10) ∧
    ((⟨0, 0, Direction.Idle, false, [5, 8], 0⟩ : Elevator).id = (Elevator.init 0 0).id ∧
      (⟨0, 0, Direction.Idle, false, [5, 8], 0⟩ : Elevator).currentFloor =
        (Elevator.init 0 0).currentFloor ∧
      (⟨0, 0, Direction.Idle, false, [5, 8], 0⟩ : Elevator).direction =
        (Elevator.init 0 0).direction ∧
      (⟨0, 0, Direction.Idle, false, [5, 8], 0⟩ : Elevator).doorOpen =
        (Elevator.init 0 0).doorOpen ∧
      (⟨0, 0, Direction.Idle, false, [5, 8], 0⟩ : Elevator).totalStopsServed =
        (Elevator.init 0 0).totalStopsServed) :=
  ⟨(assignRequests_frame (((ElevatorSystem.create 10 2).addRequest 5 8).1)).1,
   (assignRequests_frame (((ElevatorSystem.create 10 2).addRequest 5 8).1)).2.2.2 0
     (Elevator.init 0 0) ⟨0, 0, Direction.Idle, false, [5, 8], 0⟩ (by decide) (by decide)⟩

end ElevatorSim

namespace ElevatorSim

/-- The dispatch fold never decreases the processed-request counter. -/
lemma assignFold_trp_le :
    ∀ (pending : List Request) (acc : List Elevator × List Request × Int),
      acc.2.2 ≤ (pending.foldl assignBody acc).2.2 := by
  intro pending
  induction pending with
  | nil => intro acc; exact le_refl _
  | cons r rest ih =>
    intro acc
    refine le_trans ?_ (ih (assignBody acc r))
    unfold assignBody
    by_cases h : (bestOf acc.1 r).1 ≠ -1
    · rw [if_pos h]
      simp only
      omega
    · rw [if_neg h]

/-- `addRequest` never touches the fleet or the counters. -/
lemma addRequest_state_frame (s : ElevatorSystem) (f t : Int) :
    ((s.addRequest f t).1).elevators = s.elevators ∧
    ((s.addRequest f t).1).totalRequestsProcessed = s.totalRequestsProcessed ∧
    ((s.addRequest f t).1).numFloors = s.numFloors ∧
    ((s.addRequest f t).1).currentTime = s.currentTime := by
  unfold ElevatorSystem.addRequest
  split_ifs <;> exact ⟨rfl, rfl, rfl, rfl⟩

/-- One operation (submission or tick) preserves the fleet size, never
decreases the processed-request counter, and never decreases any elevator's
stop counter. -/
lemma applyOp_counters_mono (s : ElevatorSystem) (op : Op) :
    (applyOp s op).elevators.length = s.elevators.length ∧
    s.totalRequestsProcessed ≤ (applyOp s op).totalRequestsProcessed ∧
    ∀ i e e', s.elevators.get? i = some e → (applyOp s op).elevators.get? i = some e' →
      e.totalStopsServed ≤ e'.totalStopsServed := by
  cases op with
  | submit f t =>
    obtain ⟨he, ht, -, -⟩ := addRequest_state_frame s f t
    refine ⟨by rw [applyOp, he], by rw [applyOp, ht], ?_⟩
    intro i e e' h1 h2
    rw [applyOp, he, h1, Option.some.injEq] at h2
    subst h2
    exact le_refl _
  | tick =>
    have hf := assignFold_fleetFrame s.pendingRequests
      (s.elevators, ([], s.totalRequestsProcessed))
    have hmap : (applyOp s Op.tick).elevators =
        (s.pendingRequests.foldl assignBody
          (s.elevators, ([], s.totalRequestsProcessed))).1.map Elevator.step := rfl
    refine ⟨?_, ?_, ?_⟩
    · rw [hmap, List.length_map]
      exact hf.1
    · exact assignFold_trp_le s.pendingRequests
        (s.elevators, ([], s.totalRequestsProcessed))
    · intro i e e' h1 h2
      rw [hmap, List.get?_map] at h2
      rcases hmid : (s.pendingRequests.foldl assignBody
          (s.elevators, ([], s.totalRequestsProcessed))).1.get? i with _ | em
      · rw [hmid] at h2
        exact absurd h2 (by simp)
      · rw [hmid, Option.map_some', Option.some.injEq] at h2
        subst h2
        obtain ⟨-, -, -, -, hstops⟩ := hf.2 i e em h1 hmid
        rw [← hstops]
        exact Elevator.stops_le_step em

/-- C9: over any sequence of submissions and ticks, the system's
`totalRequestsProcessed` and every elevator's `totalStopsServed` never
decrease. -/
theorem counters_monotone_over_runs (s : ElevatorSystem) (ops : List Op) :
    s.totalRequestsProcessed ≤ (run s ops).totalRequestsProcessed ∧
    ∀ i e e', s.elevators.get? i = some e → (run s ops).elevators.get? i = some e' →
      e.totalStopsServed ≤ e'.totalStopsServed := by
  induction ops generalizing s with
  | nil =>
    refine ⟨le_refl _, ?_⟩
    intro i e e' h1 h2
    rw [run, List.foldl_nil] at h2
    rw [h1, Option.some.injEq] at h2
    subst h2
    exact le_refl _
  | cons op rest ih =>
    obtain ⟨hlen, htrp, hstops⟩ := applyOp_counters_mono s op
    have hrun : run s (op :: rest) = run (applyOp s op) rest := rfl
    obtain ⟨ihtrp, ihstops⟩ := ih (applyOp s op)
    refine ⟨le_trans htrp ihtrp, ?_⟩
    intro i e e' h1 h2
    rw [hrun] at h2
    obtain ⟨hia, -⟩ := List.get?_eq_some.mp h1
    have hib : i < (applyOp s op).elevators.length := by omega
    obtain ⟨em, hmid⟩ : ∃ em, (applyOp s op).elevators.get? i = some em :=
      ⟨_, List.get?_eq_get hib⟩
    exact le_trans (hstops i e em h1 hmid) (ihstops i em e' hmid h2)

/-- Witness for C9: one submission and three ticks of a 1-elevator system
take elevator 0 from 0 stops to 1 stop, and the counters never decreased. -/
theorem counters_monotone_over_runs_witness :
    (ElevatorSystem.create 10 1).totalRequestsProcessed ≤
      (run (ElevatorSystem.create 10 1)
        [Op.submit 0 3, Op.tick, Op.tick, Op.tick]).totalRequestsProcessed ∧
    (Elevator.init 0 0).totalStopsServed ≤
      (⟨0, 1, Direction.Up, false, [3], 1⟩ : Elevator).totalStopsServed :=
  ⟨(counters_monotone_over_runs (ElevatorSystem.create 10 1)
      [Op.submit 0 3, Op.tick, Op.tick, Op.tick]).1,
   (counters_monotone_over_runs (ElevatorSystem.create 10 1)
      [Op.submit 0 3, Op.tick, Op.tick, Op.tick]).2 0
      (Elevator.init 0 0) ⟨0, 1, Direction.Up, false, [3], 1⟩ (by decide) (by decide)⟩

end ElevatorSim

namespace ElevatorSim

/-- The score of an elevator for a request is at most distance plus 5 plus
queue length (the penalty is 0 or 5). -/
lemma scoreFor_le (e : Elevator) (r : Request) :
    scoreFor e r ≤ |r.fromFloor - e.currentFloor| + 5 + (e.targets.length : Int) := by
  rw [scoreFor_formula]
  simp only [Elevator.distanceToFloor]
  split_ifs <;> linarith

/-- Two pushes grow a queue by at most two entries. -/
lemma addTargets_length_le (e : Elevator) (a b : Int) :
    ((e.addTarget a).addTarget b).targets.length ≤ e.targets.length + 2 := by
  have h1 := Elevator.addTarget_length_le e a
  have h2 := Elevator.addTarget_length_le (e.addTarget a) b
  omega

/-- Over a non-empty fleet whose head's scores stay below the sentinel
(accounting for the ≤ 2 queue entries each assignment can add), the dispatch
fold assigns every request: nothing is appended to `stillPending` and the
processed counter grows by exactly the backlog length. -/
lemma assignFold_clears :
    ∀ (pending : List Request) (elevs : List Elevator) (still : List Request)
      (trp : Int) (e0 : Elevator),
      elevs.get? 0 = some e0 →
      (∀ r ∈ pending,
        |r.fromFloor - e0.currentFloor| + 5 + (e0.targets.length : Int) +
          2 * (pending.length : Int) < intMax) →
      (pending.foldl assignBody (elevs, (still, trp))).2.1 = still ∧
      (pending.foldl assignBody (elevs, (still, trp))).2.2 =
        trp + (pending.length : Int) := by
  intro pending
  induction pending with
  | nil =>
    intro elevs still trp e0 h0 hb
    exact ⟨rfl, by simp⟩
  | cons r rest ih =>
    intro elevs still trp e0 h0 hb
    have hsc : scoreFor e0 r < intMax := by
      have h5 := scoreFor_le e0 r
      have hr := hb r (List.mem_cons_self r rest)
      have hlen : (0 : Int) ≤ (rest.length : Int) := Int.natCast_nonneg _
      rw [List.length_cons] at hr
      push_cast at hr
      linarith
    obtain ⟨j, ej, hget, -, -, -, -, hbody⟩ :=
      assignBody_assigns elevs r still trp e0 h0 hsc
    obtain ⟨e0', h0', hcur', hlen'⟩ :
        ∃ e0', (modifyAt elevs j
            (fun e => (e.addTarget r.fromFloor).addTarget r.toFloor)).get? 0 = some e0' ∧
          e0'.currentFloor = e0.currentFloor ∧
          e0'.targets.length ≤ e0.targets.length + 2 := by
      rw [modifyAt_get? elevs j 0 (fun e => (e.addTarget r.fromFloor).addTarget r.toFloor)]
      by_cases hj : (0 : Nat) = j
      · rw [if_pos hj, h0]
        refine ⟨(e0.addTarget r.fromFloor).addTarget r.toFloor, rfl, ?_, ?_⟩
        · exact (frameEq_addTargets e0 r.fromFloor r.toFloor).2.1
        · exact addTargets_length_le e0 r.fromFloor r.toFloor
      · rw [if_neg hj, h0]
        exact ⟨e0, rfl, rfl, by omega⟩
    have hb' : ∀ r' ∈ rest,
        |r'.fromFloor - e0'.currentFloor| + 5 + (e0'.targets.length : Int) +
          2 * (rest.length : Int) < intMax := by
      intro r' hr'
      have hr := hb r' (List.mem_cons_of_mem r hr')
      rw [List.length_cons] at hr
      push_cast at hr
      have hcast : (e0'.targets.length : Int) ≤ (e0.targets.length : Int) + 2 := by
        omega
      rw [hcur']
      linarith
    obtain ⟨ih1, ih2⟩ := ih (modifyAt elevs j
      (fun e => (e.addTarget r.fromFloor).addTarget r.toFloor)) still (trp + 1) e0' h0' hb'
    rw [List.foldl_cons, hbody]
    refine ⟨ih1, ?_⟩
    rw [ih2, List.length_cons]
    push_cast
    ring

/-- With an empty fleet, the dispatcher keeps every request pending. -/
lemma assignFold_empty_fleet :
    ∀ (pending still : List Request) (trp : Int),
      pending.foldl assignBody (([] : List Elevator), (still, trp)) =
        ([], (still ++ pending, trp)) := by
  intro pending
  induction pending with
  | nil =>
    intro still trp
    simp
  | cons r rest ih =>
    intro still trp
    have hbody : assignBody (([] : List Elevator), (still, trp)) r =
        ([], (still ++ [r], trp)) := by
      unfold assignBody
      have hbi : (bestOf ([] : List Elevator) r).1 = -1 := rfl
      rw [if_neg (by simp [hbi])]
    rw [List.foldl_cons, hbody, ih (still ++ [r]) trp]
    simp

/-- C7: whenever the fleet is non-empty (and the head's scores stay below the
`INT_MAX` sentinel, true in every reachable state), a tick's dispatch assigns
the entire backlog: afterwards no request is pending and
`totalRequestsProcessed` has grown by the backlog's length; with an empty
fleet every request stays pending. -/
theorem assignRequests_clears_backlog (s : ElevatorSystem) (e0 : Elevator)
    (h0 : s.elevators.get? 0 = some e0)
    (hb : ∀ r ∈ s.pendingRequests,
      |r.fromFloor - e0.currentFloor| + 5 + (e0.targets.length : Int) +
        2 * (s.pendingRequests.length : Int) < intMax) :
    s.assignRequests.pendingRequests = [] ∧
    s.assignRequests.totalRequestsProcessed =
      s.totalRequestsProcessed + (s.pendingRequests.length : Int) ∧
    ∀ s' : ElevatorSystem, s'.elevators = [] →
      s'.assignRequests.pendingRequests = s'.pendingRequests := by
  obtain ⟨h1, h2⟩ := assignFold_clears s.pendingRequests s.elevators []
    s.totalRequestsProcessed e0 h0 hb
  refine ⟨h1, h2, ?_⟩
  intro s' hs'
  have hrfl : s'.assignRequests.pendingRequests =
      (s'.pendingRequests.foldl assignBody
        (s'.elevators, ([], s'.totalRequestsProcessed))).2.1 := rfl
  rw [hrfl, hs', assignFold_empty_fleet]
  simp

/-- Witness for C7: the backlog `[(5, 8)]` of a fresh 10-floor 2-elevator
system is fully assigned in one dispatch (scores far below the sentinel). -/
theorem assignRequests_clears_backlog_witness :
    ((((ElevatorSystem.create 10 2).addRequest 5 8).1).assignRequests.pendingRequests = []) ∧
    ((((ElevatorSystem.create 10 2).addRequest 5 8).1).assignRequests.totalRequestsProcessed
      = 0 + 1) :=
  ⟨(assignRequests_clears_backlog (((ElevatorSystem.create 10 2).addRequest 5 8).1)
      (Elevator.init 0 0) (by decide) (by decide)).1,
   (assignRequests_clears_backlog (((ElevatorSystem.create 10 2).addRequest 5 8).1)
      (Elevator.init 0 0) (by decide) (by decide)).2.1⟩

end ElevatorSim

namespace ElevatorSim

/-- Definitional unfoldings of the dispatch wrapper. -/
lemma ElevatorSystem.assignRequests_elevators (s : ElevatorSystem) :
    s.assignRequests.elevators =
      (s.pendingRequests.foldl assignBody
        (s.elevators, ([], s.totalRequestsProcessed))).1 := rfl

lemma ElevatorSystem.assignRequests_pending (s : ElevatorSystem) :
    s.assignRequests.pendingRequests =
      (s.pendingRequests.foldl assignBody
        (s.elevators, ([], s.totalRequestsProcessed))).2.1 := rfl

lemma ElevatorSystem.step_pending (s : ElevatorSystem) :
    s.step.pendingRequests =
      (ElevatorSystem.assignRequests
        { s with currentTime := s.currentTime + 1 }).pendingRequests := rfl

/-- A tick keeps an in-range elevator in range: moving one floor toward an
in-range front target cannot leave `[0, numFloors)`, and door handling never
moves. -/
lemma step_preserves_range (nf : Int) (e : Elevator)
    (hcur : 0 ≤ e.currentFloor ∧ e.currentFloor < nf)
    (htg : ∀ f ∈ e.targets, 0 ≤ f ∧ f < nf) :
    (0 ≤ e.step.currentFloor ∧ e.step.currentFloor < nf) ∧
    ∀ f ∈ e.step.targets, 0 ≤ f ∧ f < nf := by
  by_cases hd : e.doorOpen = true
  · obtain ⟨-, hc, -, ht, -, -⟩ := Elevator.step_door_open_spec e hd
    refine ⟨by rw [hc]; exact hcur, ?_⟩
    intro f hf
    rw [ht] at hf
    split_ifs at hf
    · exact htg f (List.mem_of_mem_tail hf)
    · exact htg f hf
  · have hd' : e.doorOpen = false := by simpa using hd
    have hspec := Elevator.step_door_closed_spec e hd'
    cases htg2 : e.targets with
    | nil =>
      rw [hspec.1 htg2]
      refine ⟨hcur, ?_⟩
      intro f hf
      exact htg f hf
    | cons t rest =>
      have hts := hspec.2 t rest htg2
      have htin : 0 ≤ t ∧ t < nf := by
        refine htg t ?_
        rw [htg2]
        exact List.mem_cons_self t rest
      by_cases hlt : e.currentFloor < t
      · rw [hts.1 hlt]
        refine ⟨⟨?_, ?_⟩, ?_⟩
        · show (0 : Int) ≤ e.currentFloor + 1
          omega
        · show e.currentFloor + 1 < nf
          omega
        · intro f hf
          exact htg f hf
      · by_cases hgt : e.currentFloor > t
        · rw [hts.2.1 hgt]
          refine ⟨⟨?_, ?_⟩, ?_⟩
          · show (0 : Int) ≤ e.currentFloor - 1
            omega
          · show e.currentFloor - 1 < nf
            omega
          · intro f hf
            exact htg f hf
        · have heq : e.currentFloor = t := by omega
          rw [hts.2.2 heq]
          refine ⟨hcur, ?_⟩
          intro f hf
          exact htg f hf

/-- A freshly constructed system (with at least one floor) is well-floored:
all elevators start at floor 0 with empty queues and the backlog is empty. -/
lemma create_wellFloored (nf ne : Int) (h : 1 ≤ nf) :
    wellFloored (ElevatorSystem.create nf ne) := by
  constructor
  · intro e he
    simp only [ElevatorSystem.create, List.mem_map] at he
    obtain ⟨i, -, rfl⟩ := he
    refine ⟨⟨?_, ?_⟩, ?_⟩
    · show (0 : Int) ≤ 0
      omega
    · show (0 : Int) < (ElevatorSystem.create nf ne).numFloors
      show (0 : Int) < nf
      omega
    · intro f hf
      simp [Elevator.init] at hf
  · intro r hr
    simp [ElevatorSystem.create] at hr

/-- Request validation keeps the system well-floored: rejected submissions
change nothing and accepted ones append an in-range request. -/
lemma addRequest_wellFloored (s : ElevatorSystem) (f t : Int) (h : wellFloored s) :
    wellFloored ((s.addRequest f t).1) := by
  unfold ElevatorSystem.addRequest
  split_ifs with h1 h2
  · exact h
  · exact h
  · constructor
    · intro e he
      exact h.1 e he
    · intro r hr
      rcases List.mem_append.mp hr with hr | hr
      · exact h.2 r hr
      · rw [List.mem_singleton] at hr
        subst hr
        push_neg at h1
        exact ⟨⟨h1.1, h1.2.1⟩, ⟨h1.2.2.1, h1.2.2.2⟩⟩

/-- Appending an in-range floor keeps a queue in range. -/
lemma addTarget_targets_range (nf : Int) (e : Elevator) (a : Int)
    (htg : ∀ f ∈ e.targets, 0 ≤ f ∧ f < nf) (ha : 0 ≤ a ∧ a < nf) :
    ∀ f ∈ (e.addTarget a).targets, 0 ≤ f ∧ f < nf := by
  intro f hf
  rcases Elevator.mem_addTarget f e a hf with hmem | rfl
  · exact htg f hmem
  · exact ha

/-- The dispatch fold preserves in-range positions and queues: assignments
only push floors taken from in-range pending requests. -/
lemma assignFold_ranges (nf : Int) :
    ∀ (pending : List Request) (elevs : List Elevator) (still : List Request) (trp : Int),
      (∀ e ∈ elevs, (0 ≤ e.currentFloor ∧ e.currentFloor < nf) ∧
        ∀ f ∈ e.targets, 0 ≤ f ∧ f < nf) →
      (∀ r ∈ pending, (0 ≤ r.fromFloor ∧ r.fromFloor < nf) ∧
        (0 ≤ r.toFloor ∧ r.toFloor < nf)) →
      (∀ r ∈ still, (0 ≤ r.fromFloor ∧ r.fromFloor < nf) ∧
        (0 ≤ r.toFloor ∧ r.toFloor < nf)) →
      (∀ e ∈ (pending.foldl assignBody (elevs, (still, trp))).1,
        (0 ≤ e.currentFloor ∧ e.currentFloor < nf) ∧
        ∀ f ∈ e.targets, 0 ≤ f ∧ f < nf) ∧
      (∀ r ∈ (pending.foldl assignBody (elevs, (still, trp))).2.1,
        (0 ≤ r.fromFloor ∧ r.fromFloor < nf) ∧
        (0 ≤ r.toFloor ∧ r.toFloor < nf)) := by
  intro pending
  induction pending with
  | nil =>
    intro elevs still trp hE hP hS
    exact ⟨hE, hS⟩
  | cons r rest ih =>
    intro elevs still trp hE hP hS
    rw [List.foldl_cons]
    have hr := hP r (List.mem_cons_self r rest)
    have hrest : ∀ r' ∈ rest, (0 ≤ r'.fromFloor ∧ r'.fromFloor < nf) ∧
        (0 ≤ r'.toFloor ∧ r'.toFloor < nf) :=
      fun r' h' => hP r' (List.mem_cons_of_mem r h')
    by_cases hbi : (bestOf elevs r).1 ≠ -1
    · have hbody : assignBody (elevs, (still, trp)) r =
          (modifyAt elevs (bestOf elevs r).1.toNat
            (fun e => (e.addTarget r.fromFloor).addTarget r.toFloor), still, trp + 1) := by
        unfold assignBody
        rw [if_pos hbi]
      rw [hbody]
      apply ih
      · intro e he
        rcases mem_modifyAt _ _ _ e he with hmem | ⟨y, hy, rfl⟩
        · exact hE e hmem
        · obtain ⟨hyc, hyt⟩ := hE y hy
          constructor
          · rw [(frameEq_addTargets y r.fromFloor r.toFloor).2.1]
            exact hyc
          · exact addTarget_targets_range nf _ r.toFloor
              (addTarget_targets_range nf y r.fromFloor hyt hr.1) hr.2
      · exact hrest
      · exact hS
    · have hbody : assignBody (elevs, (still, trp)) r = (elevs, still ++ [r], trp) := by
        unfold assignBody
        rw [if_neg hbi]
      rw [hbody]
      apply ih
      · exact hE
      · exact hrest
      · intro r' hr'
        rcases List.mem_append.mp hr' with h' | h'
        · exact hS r' h'
        · rw [List.mem_singleton] at h'
          subst h'
          exact hr

/-- A full tick preserves well-flooredness. -/
lemma step_wellFloored (s : ElevatorSystem) (h : wellFloored s) : wellFloored s.step := by
  have hfold := assignFold_ranges s.numFloors s.pendingRequests s.elevators []
    s.totalRequestsProcessed h.1 h.2 (fun r hr => absurd hr (List.not_mem_nil r))
  constructor
  · intro e he
    rw [ElevatorSystem.step_elevators] at he
    obtain ⟨e', he', rfl⟩ := List.mem_map.mp he
    rw [ElevatorSystem.assignRequests_elevators] at he'
    have hr := hfold.1 e' he'
    exact step_preserves_range s.numFloors e' hr.1 hr.2
  · intro r hr
    rw [ElevatorSystem.step_pending, ElevatorSystem.assignRequests_pending] at hr
    exact hfold.2 r hr

/-- Every operation preserves well-flooredness. -/
lemma applyOp_wellFloored (s : ElevatorSystem) (op : Op) (h : wellFloored s) :
    wellFloored (applyOp s op) := by
  cases op with
  | submit f t => exact addRequest_wellFloored s f t h
  | tick => exact step_wellFloored s h

/-- Runs preserve well-flooredness. -/
lemma run_wellFloored (s : ElevatorSystem) (ops : List Op) (h : wellFloored s) :
    wellFloored (run s ops) := by
  induction ops generalizing s with
  | nil => exact h
  | cons op rest ih => exact ih (applyOp s op) (applyOp_wellFloored s op h)

/-- No operation changes `numFloors`. -/
lemma applyOp_numFloors (s : ElevatorSystem) (op : Op) :
    (applyOp s op).numFloors = s.numFloors := by
  cases op with
  | submit f t => exact (addRequest_state_frame s f t).2.2.1
  | tick => rfl

/-- Runs do not change `numFloors`. -/
lemma run_numFloors (s : ElevatorSystem) (ops : List Op) :
    (run s ops).numFloors = s.numFloors := by
  induction ops generalizing s with
  | nil => rfl
  | cons op rest ih => exact (ih (applyOp s op)).trans (applyOp_numFloors s op)

/-- C6: on a system built with `numFloors ≥ 1`, any sequence of submissions
and ticks keeps every elevator's `currentFloor` within `[0, numFloors - 1]`
(elevators start at floor 0, only validated floors enter queues, and each
move is one floor toward an in-range front target). -/
theorem currentFloor_bounded_in_runs (nf ne : Int) (hnf : 1 ≤ nf) (ops : List Op) :
    ∀ e ∈ (run (ElevatorSystem.create nf ne) ops).elevators,
      0 ≤ e.currentFloor ∧ e.currentFloor ≤ nf - 1 := by
  have hw := run_wellFloored (ElevatorSystem.create nf ne) ops
    (create_wellFloored nf ne hnf)
  have hn := run_numFloors (ElevatorSystem.create nf ne) ops
  intro e he
  obtain ⟨⟨h1, h2⟩, -⟩ := hw.1 e he
  rw [hn] at h2
  have hn' : (ElevatorSystem.create nf ne).numFloors = nf := rfl
  rw [hn'] at h2
  exact ⟨h1, by omega⟩

/-- Witness for C6: a 10-floor, 2-elevator system after submitting (5, 8)
and ticking once: elevator 0 (now at floor 1) is in `[0, 9]`. -/
theorem currentFloor_bounded_in_runs_witness :
    (0 : Int) ≤ (⟨0, 1, Direction.Up, false, [5, 8], 0⟩ : Elevator).currentFloor ∧
    (⟨0, 1, Direction.Up, false, [5, 8], 0⟩ : Elevator).currentFloor ≤ 10 - 1 :=
  currentFloor_bounded_in_runs 10 2 (by decide) [Op.submit 5 8, Op.tick]
    ⟨0, 1, Direction.Up, false, [5, 8], 0⟩ (by decide)

end ElevatorSim
